import Mathlib

/-!
Verification of the RFCrack signal-classification core, payload codec,
capture-session loop, dual-radio rolling-code orchestrator and de Bruijn
generator, shallowly embedded from the Python sources
(src/RFFunctions.py, src/attacks.py, src/jam.py, src/utilities.py).

Hardware calls (rflib RfCat handles) are external collaborators; they are
modelled by scripted stubs: a receive trace for the sniff radio, a list of
per-attempt outcomes for the jam radio, and booleans for initialisation
success.  Printing and sleeping have no observable effect and are dropped.
-/

namespace RFCrack

/-- The fields of src/RFSettings.py used by the classifier and by the
jammer/orchestrator.  RSSI bounds are signed integers; the comparison in
determineRealTransmission uses upper_rssi as the numerically lower bound
and lower_rssi as the numerically upper bound (the source field names do
not indicate which bound is larger). -/
structure RFSettings where
  frequency : Int
  baud_rate : Int
  channel_spacing : Int
  upper_rssi : Int
  lower_rssi : Int
deriving DecidableEq

/-- src/RFFunctions.py determineRealTransmission: accepts a capture iff its
signal strength lies strictly between rf.upper_rssi and rf.lower_rssi. -/
def determineRealTransmission (signal_strength : Int) (rf : RFSettings) : Bool :=
  signal_strength > rf.upper_rssi && signal_strength < rf.lower_rssi

/-- One pass of the re.split of src/RFFunctions.py splitCaptureByZeros.
The Python pattern 0000* matches a run of three or more 0 characters
(three literal zeros followed by zero-or-more zeros), greedily consuming a
maximal run.  zs counts the pending run of 0 characters not yet assigned,
cur is the current fragment accumulated in reverse. -/
def splitZerosAux : List Char → Nat → List Char → List (List Char)
  | [], zs, cur =>
      if 3 ≤ zs then [cur.reverse, []]
      else [(List.replicate zs '0' ++ cur).reverse]
  | c :: rest, zs, cur =>
      if c = '0' then splitZerosAux rest (zs + 1) cur
      else if 3 ≤ zs then cur.reverse :: splitZerosAux rest 0 [c]
      else splitZerosAux rest 0 (c :: (List.replicate zs '0' ++ cur))

/-- src/RFFunctions.py splitCaptureByZeros: re.split on the pattern 0000*
followed by keeping only the fragments of length strictly greater than 5. -/
def splitCaptureByZeros (capture : List Char) : List (List Char) :=
  (splitZerosAux capture 0 []).filter (fun payload => payload.length > 5)

/-- The pairing loop of src/RFFunctions.py printFormatedHex: consume two
characters at a time, emit a backslash, an x and the two characters.  The
explicit next(iterator) call would raise StopIteration on a lone trailing
character; that possibility is the none case. -/
def formatPairsOpt : List Char → Option (List Char)
  | [] => some []
  | [_] => none
  | c1 :: c2 :: rest =>
      (formatPairsOpt rest).map (fun t => '\\' :: 'x' :: c1 :: c2 :: t)

/-- src/RFFunctions.py printFormatedHex: on even-length input run the
pairing loop, otherwise return the initial empty string.  none models an
escaped exception (which the claim says cannot happen). -/
def printFormatedHex (payload : List Char) : Option (List Char) :=
  if payload.length % 2 = 0 then formatPairsOpt payload else some []

/-- Specification-side description of the even case of printFormatedHex:
the hex digits paired into backslash-x-H-H byte escapes, in order. -/
def hexEscapePairs : List Char → List Char
  | c1 :: c2 :: rest => '\\' :: 'x' :: c1 :: c2 :: hexEscapePairs rest
  | _ => []

/-- Claim C4: the signal classifier accepts exactly the metrics strictly
inside the configured window, with both boundary values rejected.  The
numerically lower bound is the field upper_rssi and the numerically upper
bound is the field lower_rssi, exactly as the source comparison reads. -/
theorem c4_classifier_strict_window (m : Int) (rf : RFSettings) :
    (determineRealTransmission m rf = true ↔ rf.upper_rssi < m ∧ m < rf.lower_rssi)
    ∧ determineRealTransmission rf.upper_rssi rf = false
    ∧ determineRealTransmission rf.lower_rssi rf = false := by
  refine ⟨?_, ?_, ?_⟩ <;> simp [determineRealTransmission]

/-- Helper for claim C9: the pairing loop succeeds on every even-length
input and produces the byte-escape rendering. -/
theorem formatPairsOpt_even : ∀ (payload : List Char), payload.length % 2 = 0 →
    formatPairsOpt payload = some (hexEscapePairs payload)
  | [], _ => rfl
  | [_], h => by simp at h
  | c1 :: c2 :: rest, h => by
      have hr : rest.length % 2 = 0 := by
        simp only [List.length_cons] at h
        omega
      simp [formatPairsOpt, hexEscapePairs, formatPairsOpt_even rest hr]

/-- Claim C9: printFormatedHex never raises; even-length payloads are
paired into byte-escape notation in order, odd-length payloads produce the
empty output. -/
theorem c9_printFormatedHex_total (payload : List Char) :
    printFormatedHex payload
      = some (if payload.length % 2 = 0 then hexEscapePairs payload else []) := by
  by_cases h : payload.length % 2 = 0
  · simp [printFormatedHex, h, formatPairsOpt_even payload h]
  · simp [printFormatedHex, h]

/-- Claim C2, code evaluation: the source regex 0000* delimits on a run of
exactly three zeros, so the capture 111111000222222 is split into two
fragments although the claim says a three-zero run must not delimit. -/
theorem c2_three_zero_run_splits :
    splitCaptureByZeros ("111111000222222".toList)
      = ["111111".toList, "222222".toList] := by decide

/-- One scripted receive outcome of the sniff radio: either d.RFrecv raises
ChipconUsbTimeoutException, or a frame arrives with the given hex payload and
the signal strength derived from the RSSI register (0 - ord(d.getRSSI()),
or 0 if reading the register raises). -/
inductive RecvEvent where
  | timeout
  | frame (payload : String) (strength : Int)
deriving DecidableEq

/-- Observable hardware actions of a rolling-code run.  jamXmit and jamIdle
are calls on the jam handle j, sniffXmit and sniffIdle are calls on the
sniff/replay handle d, accepted records a windowed capture being appended,
jamFail records the max-retries-reached report, fileSaved records a capture
being written to a capture file. -/
inductive Event where
  | jamXmit
  | jamIdle
  | jamFail
  | accepted (payload : String)
  | sniffXmit (payload : String)
  | sniffIdle
  | fileSaved (payload : String)
deriving DecidableEq

/-- The while-True loop of src/RFFunctions.py capturePayload with a truthy
rolling_code argument, driven by a scripted list of receive events.  The
state mirrors the Python locals: capture (left stale by a timeout and never
cleared on acceptance), signal_strength, roll_captures and roll_count.
Returns none, with the events emitted so far, if the script ends before the
loop returns (the real loop would block in RFrecv forever). -/
def capturePayloadRolling (rf : RFSettings) :
    List RecvEvent → String → Int → List String → Nat →
      Option (List String × Int) × List Event
  | [], _, _, _, _ => (none, [])
  | e :: rest, capture, signal_strength, roll_captures, roll_count =>
      let st : String × Int :=
        match e with
        | RecvEvent.timeout => (capture, signal_strength)
        | RecvEvent.frame y s => (y, s)
      let capture := st.1
      let signal_strength := st.2
      if capture ≠ "" then
        if determineRealTransmission signal_strength rf then
          let roll_captures := roll_captures ++ [capture]
          if 1 ≤ roll_count then
            (some (roll_captures, signal_strength), [Event.accepted capture])
          else
            let r := capturePayloadRolling rf rest capture signal_strength roll_captures
              (roll_count + 1)
            (r.1, Event.accepted capture :: r.2)
        else capturePayloadRolling rf rest capture signal_strength roll_captures roll_count
      else capturePayloadRolling rf rest capture signal_strength roll_captures roll_count

/-- capturePayload entry point in rolling-code mode: empty initial capture,
no captures accepted yet. -/
def capturePayload (rf : RFSettings) (events : List RecvEvent) :
    Option (List String × Int) × List Event :=
  capturePayloadRolling rf events "" 0 [] 0

/-- Claim C6: on a scripted trace of five frames where only the second and
the fourth are inside the RSSI window, the windowed capture loop returns
exactly those two payloads in that order; it already returns on the
four-frame prefix, so it neither stops after the third frame nor needs the
fifth. -/
theorem c6_windowed_capture_trace (rf : RFSettings) (p1 p2 p3 p4 p5 : String)
    (s1 s2 s3 s4 s5 : Int)
    (hp1 : p1 ≠ "") (hp2 : p2 ≠ "") (hp3 : p3 ≠ "") (hp4 : p4 ≠ "")
    (h1 : determineRealTransmission s1 rf = false)
    (h2 : determineRealTransmission s2 rf = true)
    (h3 : determineRealTransmission s3 rf = false)
    (h4 : determineRealTransmission s4 rf = true) :
    (capturePayload rf [RecvEvent.frame p1 s1, RecvEvent.frame p2 s2,
        RecvEvent.frame p3 s3, RecvEvent.frame p4 s4, RecvEvent.frame p5 s5]).1
      = some ([p2, p4], s4)
    ∧ (capturePayload rf [RecvEvent.frame p1 s1, RecvEvent.frame p2 s2,
        RecvEvent.frame p3 s3, RecvEvent.frame p4 s4]).1
      = some ([p2, p4], s4) := by
  constructor <;>
    simp [capturePayload, capturePayloadRolling, hp1, hp2, hp3, hp4, h1, h2, h3, h4]

/-- Concrete witness for claim C6. -/
theorem c6_windowed_capture_trace_witness :
    (capturePayload ⟨315000000, 4800, 24000, -80, -20⟩
        [RecvEvent.frame "aa11" (-90), RecvEvent.frame "bb22" (-50),
         RecvEvent.frame "cc33" (-90), RecvEvent.frame "dd44" (-50),
         RecvEvent.frame "ee55" (-90)]).1 = some (["bb22", "dd44"], -50)
    ∧ (capturePayload ⟨315000000, 4800, 24000, -80, -20⟩
        [RecvEvent.frame "aa11" (-90), RecvEvent.frame "bb22" (-50),
         RecvEvent.frame "cc33" (-90), RecvEvent.frame "dd44" (-50)]).1
      = some (["bb22", "dd44"], -50) :=
  c6_windowed_capture_trace ⟨315000000, 4800, 24000, -80, -20⟩
    "aa11" "bb22" "cc33" "dd44" "ee55" (-90) (-50) (-90) (-50) (-90)
    (by decide) (by decide) (by decide) (by decide)
    (by decide) (by decide) (by decide) (by decide)

/-- Claim C10: the capture variable is not cleared after acceptance, so an
in-window frame followed by a receive timeout makes the loop re-evaluate the
stale payload, accept it a second time, and return the same frame twice. -/
theorem c10_stale_capture_duplicated (rf : RFSettings) (p : String) (s : Int)
    (hp : p ≠ "") (hs : determineRealTransmission s rf = true) :
    (capturePayload rf [RecvEvent.frame p s, RecvEvent.timeout]).1
      = some ([p, p], s) := by
  simp [capturePayload, capturePayloadRolling, hp, hs]

/-- Concrete witness for claim C10. -/
theorem c10_stale_capture_duplicated_witness :
    (capturePayload ⟨315000000, 4800, 24000, -80, -20⟩
        [RecvEvent.frame "aa11" (-50), RecvEvent.timeout]).1
      = some (["aa11", "aa11"], -50) :=
  c10_stale_capture_duplicated ⟨315000000, 4800, 24000, -80, -20⟩
    "aa11" (-50) (by decide) (by decide)

/-- Scripted behaviour of one attempt of the jamming transmit loop:
ok n means n calls of j.RFxmit succeed and then keystop() becomes true (the
operator presses a key and the while loop exits cleanly); err n means n
calls succeed and the next one raises. -/
inductive JamAttempt where
  | ok (xmits : Nat)
  | err (xmits : Nat)

/-- The for-attempt-in-range(retries) loop of src/jam.py jamming with the
start action.  On a clean exit of the transmit loop the radio is idled only
in non-rolling mode and the for loop breaks; on an exception the attempt is
retried, and the final failing attempt reports max-retries-reached without
any setModeIDLE call.  attempt is the current index, the last argument the
number of attempts still available. -/
def jamStartLoop (rolling_code : Bool) (stub : Nat → JamAttempt) :
    Nat → Nat → List Event
  | _, 0 => []
  | attempt, remaining + 1 =>
      match stub attempt with
      | JamAttempt.ok n =>
          List.replicate n Event.jamXmit ++
            (if rolling_code then [] else [Event.jamIdle])
      | JamAttempt.err n =>
          List.replicate n Event.jamXmit ++
            (if remaining = 0 then [Event.jamFail]
             else jamStartLoop rolling_code stub (attempt + 1) remaining)

/-- src/jam.py setupJammer: configures a second RfCat handle inside a
try/except and returns the handle, or None when any hardware call raises.
The hardware outcome is the stub argument hwOk. -/
def setupJammer (hwOk : Bool) : Option Unit :=
  if hwOk then some () else none

/-- src/jam.py jamming: a None handle only prints and returns; otherwise the
frequency is set to rf.frequency + jamming_variance (assumed not to raise)
and the action dispatches to the start retry loop, or to an immediate
setModeIDLE for stop. -/
def jamming (j : Option Unit) (action : String) (rolling_code : Bool)
    (stub : Nat → JamAttempt) (retries : Nat) : List Event :=
  match j with
  | none => []
  | some _ =>
      if action = "start" then jamStartLoop rolling_code stub 0 retries
      else if action = "stop" then [Event.jamIdle]
      else []

/-- src/RFFunctions.py sendTransmission: one d.RFxmit call.  The transmitted
bytes are createBytesFromPayloads of the recorded capture, so the event
carries the capture payload itself. -/
def sendTransmission (payload : String) : List Event :=
  [Event.sniffXmit payload]

/-- src/attacks.py rollingCode as an event trace over stubbed hardware:
setupJammer, jamming start, the windowed capture of two payloads, jamming
stop, replay of the first payload, then either replay of the second payload
(the operator answer lowercases to y, i.e. resp is y or Y) or setModeIDLE
on the sniff radio followed by saving the second capture to a file.
Returns none when the capture loop never returns.  rolling_code is truthy
on this code path, so jamming and the capture loop run in rolling mode. -/
def rollingCode (rf : RFSettings) (hwOk : Bool) (stub : Nat → JamAttempt)
    (recvTrace : List RecvEvent) (resp : String) : Option (List Event) :=
  let j := setupJammer hwOk
  let jamStart := jamming j "start" true stub 3
  match capturePayload rf recvTrace with
  | (none, _) => none
  | (some (roll_captures, _), capEvents) =>
      let jamStop := jamming j "stop" true stub 3
      let firstSend := sendTransmission (roll_captures.getD 0 "")
      let finish :=
        if resp = "y" ∨ resp = "Y" then sendTransmission (roll_captures.getD 1 "")
        else [Event.sniffIdle, Event.fileSaved (roll_captures.getD 1 "")]
      some (jamStart ++ capEvents ++ jamStop ++ firstSend ++ finish)

/-- Event classifier: windowed-capture acceptances. -/
def isAccepted : Event → Bool
  | Event.accepted _ => true
  | _ => false

/-- Event classifier: transmissions on the sniff/replay radio. -/
def isSniffXmit : Event → Bool
  | Event.sniffXmit _ => true
  | _ => false

/-- Unfolding equation for a timed-out receive: the stale state is
re-evaluated unchanged. -/
theorem capturePayloadRolling_timeout_eq (rf : RFSettings) (rest : List RecvEvent)
    (capture : String) (s : Int) (caps : List String) (rc : Nat) :
    capturePayloadRolling rf (RecvEvent.timeout :: rest) capture s caps rc =
      if capture ≠ "" then
        if determineRealTransmission s rf then
          if 1 ≤ rc then (some (caps ++ [capture], s), [Event.accepted capture])
          else
            ((capturePayloadRolling rf rest capture s (caps ++ [capture]) (rc + 1)).1,
              Event.accepted capture ::
                (capturePayloadRolling rf rest capture s (caps ++ [capture]) (rc + 1)).2)
        else capturePayloadRolling rf rest capture s caps rc
      else capturePayloadRolling rf rest capture s caps rc := rfl

/-- Unfolding equation for a received frame: capture and signal strength are
replaced by the new values. -/
theorem capturePayloadRolling_frame_eq (rf : RFSettings) (rest : List RecvEvent)
    (y : String) (sy : Int) (capture : String) (s : Int) (caps : List String) (rc : Nat) :
    capturePayloadRolling rf (RecvEvent.frame y sy :: rest) capture s caps rc =
      if y ≠ "" then
        if determineRealTransmission sy rf then
          if 1 ≤ rc then (some (caps ++ [y], sy), [Event.accepted y])
          else
            ((capturePayloadRolling rf rest y sy (caps ++ [y]) (rc + 1)).1,
              Event.accepted y ::
                (capturePayloadRolling rf rest y sy (caps ++ [y]) (rc + 1)).2)
        else capturePayloadRolling rf rest y sy caps rc
      else capturePayloadRolling rf rest y sy caps rc := rfl

/-- When the rolling capture loop returns, the captures gathered beyond the
initial accumulator are exactly the emitted acceptance events, and their
number is two when starting from roll_count 0, one when starting from a
roll_count of at least 1. -/
theorem capturePayloadRolling_success (rf : RFSettings) :
    ∀ (evs : List RecvEvent) (capture : String) (s : Int) (caps : List String)
      (rc : Nat) (out : List String × Int),
      (capturePayloadRolling rf evs capture s caps rc).1 = some out →
      ∃ newCaps, out.1 = caps ++ newCaps ∧
        (capturePayloadRolling rf evs capture s caps rc).2
          = newCaps.map Event.accepted ∧
        newCaps.length + min rc 1 = 2 := by
  intro evs
  induction evs with
  | nil => intro capture s caps rc out h; simp [capturePayloadRolling] at h
  | cons e rest ih =>
      intro capture s caps rc out h
      cases e with
      | timeout =>
          rw [capturePayloadRolling_timeout_eq] at h ⊢
          split_ifs at h ⊢ with hc hd hrc
          · obtain rfl : (caps ++ [capture], s) = out := by simpa using h
            exact ⟨[capture], by simp, by simp, by simp; omega⟩
          · obtain ⟨newCaps, h1, h2, h3⟩ :=
              ih capture s (caps ++ [capture]) (rc + 1) out (by simpa using h)
            exact ⟨capture :: newCaps, by simpa using h1, by simpa using h2,
              by simp; omega⟩
          · exact ih capture s caps rc out h
          · exact ih capture s caps rc out h
      | frame y sy =>
          rw [capturePayloadRolling_frame_eq] at h ⊢
          split_ifs at h ⊢ with hc hd hrc
          · obtain rfl : (caps ++ [y], sy) = out := by simpa using h
            exact ⟨[y], by simp, by simp, by simp; omega⟩
          · obtain ⟨newCaps, h1, h2, h3⟩ :=
              ih y sy (caps ++ [y]) (rc + 1) out (by simpa using h)
            exact ⟨y :: newCaps, by simpa using h1, by simpa using h2,
              by simp; omega⟩
          · exact ih y sy caps rc out h
          · exact ih y sy caps rc out h

/-- Top-level form: a successful rolling capture returns exactly two
captures and its event trace is their acceptance events in order. -/
theorem capturePayload_success (rf : RFSettings) (evs : List RecvEvent)
    (out : List String × Int) (h : (capturePayload rf evs).1 = some out) :
    (capturePayload rf evs).2 = out.1.map Event.accepted ∧ out.1.length = 2 := by
  obtain ⟨newCaps, h1, h2, h3⟩ :=
    capturePayloadRolling_success rf evs "" 0 [] 0 out h
  simp only [List.nil_append] at h1
  subst h1
  exact ⟨h2, by omega⟩

/-- In rolling-code mode the jamming start loop never idles the radio: it
emits only transmit events and possibly the final failure report. -/
theorem jamStartLoop_rolling_mem (stub : Nat → JamAttempt) :
    ∀ (remaining attempt : Nat) (e : Event),
      e ∈ jamStartLoop true stub attempt remaining →
      e = Event.jamXmit ∨ e = Event.jamFail := by
  intro remaining
  induction remaining with
  | zero => intro attempt e h; simp [jamStartLoop] at h
  | succ m ih =>
      intro attempt e h
      simp only [jamStartLoop] at h
      cases hstub : stub attempt with
      | ok n =>
          rw [hstub] at h
          simp only [if_true, List.append_nil, ite_true] at h
          exact Or.inl (List.eq_of_mem_replicate h)
      | err n =>
          rw [hstub] at h
          rcases List.mem_append.mp h with h1 | h2
          · exact Or.inl (List.eq_of_mem_replicate h1)
          · by_cases hm : m = 0
            · rw [if_pos hm] at h2
              simp at h2
              exact Or.inr h2
            · rw [if_neg hm] at h2
              exact ih attempt.succ e h2

/-- Counting acceptance events over a list of acceptance events. -/
theorem countP_isAccepted_map (caps : List String) :
    (caps.map Event.accepted).countP isAccepted = caps.length := by
  induction caps with
  | nil => rfl
  | cons c t ih => simp [List.countP_cons, isAccepted, ih]

/-- Acceptance events are not sniff transmissions. -/
theorem countP_isSniffXmit_map_accepted (caps : List String) :
    (caps.map Event.accepted).countP isSniffXmit = 0 := by
  induction caps with
  | nil => rfl
  | cons c t ih => simp [List.countP_cons, isSniffXmit, ih]

/-- Claim C1: in a rolling-code run that secures two in-window captures,
setIdleMode on the jam radio happens exactly once, strictly after both
accepted captures and strictly before any transmit on the sniff/replay
radio: the trace splits around the single jamIdle event, with both
acceptances and no sniff transmit before it, and no acceptance after it. -/
theorem c1_jammer_stopped_between_capture_and_replay (rf : RFSettings)
    (stub : Nat → JamAttempt) (recvTrace : List RecvEvent) (resp : String)
    (tr : List Event) (hrun : rollingCode rf true stub recvTrace resp = some tr) :
    ∃ pre post, tr = pre ++ Event.jamIdle :: post ∧
      pre.countP isAccepted = 2 ∧
      pre.countP isSniffXmit = 0 ∧
      Event.jamIdle ∉ pre ∧ Event.jamIdle ∉ post ∧
      post.countP isAccepted = 0 := by
  unfold rollingCode at hrun
  cases hcap : capturePayload rf recvTrace with
  | mk o evs =>
      rw [hcap] at hrun
      cases o with
      | none => simp at hrun
      | some out =>
          obtain ⟨caps, sstr⟩ := out
          have hsucc := capturePayload_success rf recvTrace (caps, sstr)
            (by rw [hcap])
          rw [hcap] at hsucc
          have hevs : evs = caps.map Event.accepted := hsucc.1
          have hlen : caps.length = 2 := hsucc.2
          replace hrun : some (jamming (setupJammer true) "start" true stub 3 ++ evs ++
              jamming (setupJammer true) "stop" true stub 3 ++
              sendTransmission (caps.getD 0 "") ++
              (if resp = "y" ∨ resp = "Y" then sendTransmission (caps.getD 1 "")
               else [Event.sniffIdle, Event.fileSaved (caps.getD 1 "")])) = some tr := hrun
          have htr := (Option.some.inj hrun).symm
          have hstart : jamming (setupJammer true) "start" true stub 3
              = jamStartLoop true stub 0 3 := rfl
          have hstop : jamming (setupJammer true) "stop" true stub 3
              = [Event.jamIdle] := rfl
          rw [hstart, hstop, hevs, sendTransmission] at htr
          refine ⟨jamStartLoop true stub 0 3 ++ caps.map Event.accepted,
            [Event.sniffXmit (caps.getD 0 "")] ++
              (if resp = "y" ∨ resp = "Y" then sendTransmission (caps.getD 1 "")
               else [Event.sniffIdle, Event.fileSaved (caps.getD 1 "")]), ?_, ?_, ?_, ?_, ?_, ?_⟩
          · rw [htr]; simp
          · rw [List.countP_append]
            have h0 : (jamStartLoop true stub 0 3).countP isAccepted = 0 := by
              rw [List.countP_eq_zero]
              intro a ha
              rcases jamStartLoop_rolling_mem stub 3 0 a ha with rfl | rfl <;> simp [isAccepted]
            rw [h0, countP_isAccepted_map, hlen]
          · rw [List.countP_append]
            have h0 : (jamStartLoop true stub 0 3).countP isSniffXmit = 0 := by
              rw [List.countP_eq_zero]
              intro a ha
              rcases jamStartLoop_rolling_mem stub 3 0 a ha with rfl | rfl <;> simp [isSniffXmit]
            rw [h0, countP_isSniffXmit_map_accepted]
          · intro hmem
            rcases List.mem_append.mp hmem with h1 | h2
            · rcases jamStartLoop_rolling_mem stub 3 0 _ h1 with h | h <;> simp at h
            · rcases List.mem_map.mp h2 with ⟨c, _, hc⟩
              simp at hc
          · intro hmem
            rcases List.mem_append.mp hmem with h1 | h2
            · simp at h1
            · by_cases hy : resp = "y" ∨ resp = "Y" <;>
                simp [hy, sendTransmission] at h2
          · rw [List.countP_append]
            have h1 : ([Event.sniffXmit (caps.getD 0 "")] : List Event).countP isAccepted = 0 := by
              simp [isAccepted]
            rw [h1]
            by_cases hy : resp = "y" ∨ resp = "Y" <;>
              simp [hy, sendTransmission, isAccepted]

/-- Concrete witness for claim C1: a clean jam start, two in-window frames
and an operator answering y. -/
theorem c1_jammer_stopped_witness :
    ∃ pre post,
      ([Event.accepted "aa11", Event.accepted "bb22", Event.jamIdle,
        Event.sniffXmit "aa11", Event.sniffXmit "bb22"] : List Event)
        = pre ++ Event.jamIdle :: post ∧
      pre.countP isAccepted = 2 ∧
      pre.countP isSniffXmit = 0 ∧
      Event.jamIdle ∉ pre ∧ Event.jamIdle ∉ post ∧
      post.countP isAccepted = 0 :=
  c1_jammer_stopped_between_capture_and_replay ⟨315000000, 4800, 24000, -80, -20⟩
    (fun _ => JamAttempt.ok 0)
    [RecvEvent.frame "aa11" (-50), RecvEvent.frame "bb22" (-50)] "y" _ (by decide)

/-- Claim C7 counterexample: the jam radio fails to initialise (setupJammer
returns None), yet the run still accepts two captures and still transmits
both replays on the sniff radio, so the session is not aborted. -/
theorem c7_setup_failure_counterexample :
    rollingCode ⟨315000000, 4800, 24000, -80, -20⟩ false (fun _ => JamAttempt.ok 0)
        [RecvEvent.frame "aa11" (-50), RecvEvent.frame "bb22" (-50)] "y"
      = some [Event.accepted "aa11", Event.accepted "bb22",
              Event.sniffXmit "aa11", Event.sniffXmit "bb22"] := by decide

/-- Claim C7 amended: when setupJammer fails, no jamming transmission is
started and the jam radio is never touched (both jamming calls are no-ops),
but the session is not fatal: the capture loop still accepts two captures
and the replay transmit still proceeds. -/
theorem c7_amended_setup_failure_continues (rf : RFSettings)
    (stub : Nat → JamAttempt) (recvTrace : List RecvEvent) (resp : String)
    (tr : List Event) (hrun : rollingCode rf false stub recvTrace resp = some tr) :
    Event.jamXmit ∉ tr ∧ Event.jamIdle ∉ tr ∧ Event.jamFail ∉ tr ∧
    tr.countP isAccepted = 2 ∧ 1 ≤ tr.countP isSniffXmit := by
  unfold rollingCode at hrun
  cases hcap : capturePayload rf recvTrace with
  | mk o evs =>
      rw [hcap] at hrun
      cases o with
      | none => simp at hrun
      | some out =>
          obtain ⟨caps, sstr⟩ := out
          have hsucc := capturePayload_success rf recvTrace (caps, sstr)
            (by rw [hcap])
          rw [hcap] at hsucc
          have hevs : evs = caps.map Event.accepted := hsucc.1
          have hlen : caps.length = 2 := hsucc.2
          replace hrun : some (jamming (setupJammer false) "start" true stub 3 ++ evs ++
              jamming (setupJammer false) "stop" true stub 3 ++
              sendTransmission (caps.getD 0 "") ++
              (if resp = "y" ∨ resp = "Y" then sendTransmission (caps.getD 1 "")
               else [Event.sniffIdle, Event.fileSaved (caps.getD 1 "")])) = some tr := hrun
          have htr := (Option.some.inj hrun).symm
          have hnone1 : jamming (setupJammer false) "start" true stub 3 = [] := rfl
          have hnone2 : jamming (setupJammer false) "stop" true stub 3 = [] := rfl
          rw [hnone1, hnone2, hevs, sendTransmission] at htr
          subst htr
          refine ⟨?_, ?_, ?_, ?_, ?_⟩
          · intro hmem
            simp only [List.append_nil, List.nil_append, List.mem_append] at hmem
            rcases hmem with (h | h) | h
            · rcases List.mem_map.mp h with ⟨c, _, hc⟩; simp at hc
            · simp at h
            · by_cases hy : resp = "y" ∨ resp = "Y" <;>
                simp [hy, sendTransmission] at h
          · intro hmem
            simp only [List.append_nil, List.nil_append, List.mem_append] at hmem
            rcases hmem with (h | h) | h
            · rcases List.mem_map.mp h with ⟨c, _, hc⟩; simp at hc
            · simp at h
            · by_cases hy : resp = "y" ∨ resp = "Y" <;>
                simp [hy, sendTransmission] at h
          · intro hmem
            simp only [List.append_nil, List.nil_append, List.mem_append] at hmem
            rcases hmem with (h | h) | h
            · rcases List.mem_map.mp h with ⟨c, _, hc⟩; simp at hc
            · simp at h
            · by_cases hy : resp = "y" ∨ resp = "Y" <;>
                simp [hy, sendTransmission] at h
          · simp only [List.append_nil, List.nil_append, List.countP_append]
            rw [countP_isAccepted_map, hlen]
            have h1 : ([Event.sniffXmit (caps.getD 0 "")] : List Event).countP isAccepted = 0 := by
              simp [isAccepted]
            rw [h1]
            by_cases hy : resp = "y" ∨ resp = "Y" <;>
              simp [hy, sendTransmission, isAccepted]
          · simp only [List.append_nil, List.nil_append, List.countP_append]
            have h1 : ([Event.sniffXmit (caps.getD 0 "")] : List Event).countP isSniffXmit = 1 := by
              simp [isSniffXmit]
            rw [h1]
            omega

/-- Concrete witness for the amended claim C7. -/
theorem c7_amended_witness :
    Event.jamXmit ∉ ([Event.accepted "aa11", Event.accepted "bb22",
        Event.sniffXmit "aa11", Event.sniffXmit "bb22"] : List Event) ∧
    Event.jamIdle ∉ ([Event.accepted "aa11", Event.accepted "bb22",
        Event.sniffXmit "aa11", Event.sniffXmit "bb22"] : List Event) ∧
    Event.jamFail ∉ ([Event.accepted "aa11", Event.accepted "bb22",
        Event.sniffXmit "aa11", Event.sniffXmit "bb22"] : List Event) ∧
    ([Event.accepted "aa11", Event.accepted "bb22",
        Event.sniffXmit "aa11", Event.sniffXmit "bb22"] : List Event).countP isAccepted = 2 ∧
    1 ≤ ([Event.accepted "aa11", Event.accepted "bb22",
        Event.sniffXmit "aa11", Event.sniffXmit "bb22"] : List Event).countP isSniffXmit :=
  c7_amended_setup_failure_continues ⟨315000000, 4800, 24000, -80, -20⟩
    (fun _ => JamAttempt.ok 0)
    [RecvEvent.frame "aa11" (-50), RecvEvent.frame "bb22" (-50)] "y" _ (by decide)

/-- Claim C8 counterexample: with every transmit attempt raising, the
retries-exhausted path of jamming start reports the failure while issuing
no setModeIDLE call at all. -/
theorem c8_no_idle_counterexample :
    jamming (setupJammer true) "start" true (fun _ => JamAttempt.err 0) 3
      = [Event.jamFail]
    ∧ Event.jamIdle ∉
        jamming (setupJammer true) "start" true (fun _ => JamAttempt.err 0) 3 := by
  constructor <;> decide

/-- Helper for the amended claim C8: if every remaining attempt raises, the
start loop ends in the failure report and never idles the radio. -/
theorem jamStartLoop_all_err (rolling_code : Bool) (stub : Nat → JamAttempt) :
    ∀ (remaining attempt : Nat), 1 ≤ remaining →
      (∀ i, attempt ≤ i → i < attempt + remaining → ∃ n, stub i = JamAttempt.err n) →
      Event.jamFail ∈ jamStartLoop rolling_code stub attempt remaining ∧
      Event.jamIdle ∉ jamStartLoop rolling_code stub attempt remaining := by
  intro remaining
  induction remaining with
  | zero => intro attempt h; omega
  | succ m ih =>
      intro attempt _ herr
      obtain ⟨n, hn⟩ := herr attempt (le_refl _) (by omega)
      simp only [jamStartLoop, hn]
      by_cases hm : m = 0
      · subst hm
        simp
      · rw [if_neg hm]
        obtain ⟨hmem, hnot⟩ := ih (attempt + 1) (by omega)
          (fun i h1 h2 => herr i (by omega) (by omega))
        constructor
        · exact List.mem_append.mpr (Or.inr hmem)
        · intro hmem2
          rcases List.mem_append.mp hmem2 with h1 | h2
          · have := List.eq_of_mem_replicate h1
            simp at this
          · exact hnot h2

/-- Claim C8 amended: when transmit errors exhaust the retry budget, the
failure is surfaced without the jam radio being returned to idle: the
failing start invocation reports jamFail and contains no setModeIDLE call
(the idle call sits only on the clean-exit non-rolling path). -/
theorem c8_amended_no_idle_on_exhausted_retries (rolling_code : Bool)
    (stub : Nat → JamAttempt) (retries : Nat) (hr : 1 ≤ retries)
    (herr : ∀ i, i < retries → ∃ n, stub i = JamAttempt.err n) :
    Event.jamFail ∈ jamming (some ()) "start" rolling_code stub retries ∧
    Event.jamIdle ∉ jamming (some ()) "start" rolling_code stub retries := by
  have := jamStartLoop_all_err rolling_code stub retries 0 hr
    (fun i h1 h2 => herr i (by omega))
  simpa [jamming] using this

/-- Concrete witness for the amended claim C8. -/
theorem c8_amended_witness :
    Event.jamFail ∈ jamming (some ()) "start" true (fun _ => JamAttempt.err 1) 3 ∧
    Event.jamIdle ∉ jamming (some ()) "start" true (fun _ => JamAttempt.err 1) 3 :=
  c8_amended_no_idle_on_exhausted_retries true (fun _ => JamAttempt.err 1) 3
    (by decide) (fun i _ => ⟨1, rfl⟩)

/-- Value of a hex string as computed by int(payload, 16) inside
createBytesFromPayloads.  A hex string is represented as the list of its
digit values, one entry per hex character. -/
def hexToNat (h : List (Fin 16)) : Nat :=
  h.foldl (fun acc d => 16 * acc + d.val) 0

/-- Fuel-indexed big-endian binary expansion: bin(v)[2:] restricted to
positive v.  The fuel bounds the recursion depth and any fuel of at least v
computes the full expansion. -/
def natBitsAux : Nat → Nat → List Bool
  | 0, _ => []
  | _ + 1, 0 => []
  | fuel + 1, v + 1 => natBitsAux fuel ((v + 1) / 2) ++ [decide ((v + 1) % 2 = 1)]

/-- The Python expression bin(v)[2:] of createBytesFromPayloads: the minimal
big-endian binary expansion, except that value 0 renders as the single
character 0. -/
def pythonBin (v : Nat) : List Bool :=
  if v = 0 then [false] else natBitsAux v v

/-- Value of one byte from its eight bits, most significant first. -/
def byteVal8 (b0 b1 b2 b3 b4 b5 b6 b7 : Bool) : Nat :=
  128 * b0.toNat + 64 * b1.toNat + 32 * b2.toNat + 16 * b3.toNat +
    8 * b4.toNat + 4 * b5.toNat + 2 * b6.toNat + b7.toNat

/-- Pack a bit list into bytes eight at a time, most significant bit first;
a trailing group of fewer than eight bits is dropped (turnToBytes pads
before calling this, so nothing is dropped there). -/
def chunkBytes : List Bool → List Nat
  | b0 :: b1 :: b2 :: b3 :: b4 :: b5 :: b6 :: b7 :: rest =>
      byteVal8 b0 b1 b2 b3 b4 b5 b6 b7 :: chunkBytes rest
  | _ => []

/-- src/RFFunctions.py turnToBytes, i.e. bitstring.BitArray(bin=b).tobytes():
zero bits are appended on the right up to the next byte boundary and the
result is packed into bytes. -/
def turnToBytes (bits : List Bool) : List Nat :=
  chunkBytes (bits ++ List.replicate ((8 - bits.length % 8) % 8) false)

/-- One iteration of src/RFFunctions.py createBytesFromPayloads:
turnToBytes(bin(int(payload, 16))[2:]). -/
def createBytesFromPayload (h : List (Fin 16)) : List Nat :=
  turnToBytes (pythonBin (hexToNat h))

/-- src/RFFunctions.py createBytesFromPayloads over a payload list. -/
def createBytesFromPayloads (payloads : List (List (Fin 16))) : List (List Nat) :=
  payloads.map createBytesFromPayload

/-- The direct hex-to-bytes decode the claim compares against (as in
bytes.fromhex): consecutive digit pairs become bytes. -/
def hexPairsToBytes : List (Fin 16) → List Nat
  | d1 :: d2 :: rest => (16 * d1.val + d2.val) :: hexPairsToBytes rest
  | _ => []

/-- The four bits of one hex digit, most significant first. -/
def bits4 (d : Fin 16) : List Bool :=
  [decide (d.val / 8 % 2 = 1), decide (d.val / 4 % 2 = 1),
   decide (d.val / 2 % 2 = 1), decide (d.val % 2 = 1)]

/-- Width-exact bit expansion of a hex string: four bits per digit. -/
def bitsOfHex : List (Fin 16) → List Bool
  | [] => []
  | d :: rest => bits4 d ++ bitsOfHex rest

/-- Claim C3 counterexample: the even-length hex string 01 round-trips to
the byte 0x80, not to the byte 0x01 of the direct decode, because bin()
strips the leading zero bits and tobytes() then pads on the right. -/
theorem c3_roundtrip_counterexample :
    (([0, 1] : List (Fin 16)).length % 2 = 0) ∧
    createBytesFromPayload [0, 1] = [128] ∧
    hexPairsToBytes [0, 1] = [1] ∧
    createBytesFromPayload [0, 1] ≠ hexPairsToBytes [0, 1] := by decide

/-- The fuel argument of natBitsAux is irrelevant once it is at least the
value being expanded. -/
theorem natBitsAux_congr : ∀ (v f g : Nat), v ≤ f → v ≤ g →
    natBitsAux f v = natBitsAux g v := by
  intro v
  induction v using Nat.strong_induction_on with
  | _ v ih =>
      intro f g hf hg
      match v, f, g with
      | 0, 0, 0 => rfl
      | 0, 0, _ + 1 => rfl
      | 0, _ + 1, 0 => rfl
      | 0, _ + 1, _ + 1 => rfl
      | w + 1, f + 1, g + 1 =>
          show natBitsAux f ((w + 1) / 2) ++ _ = natBitsAux g ((w + 1) / 2) ++ _
          rw [ih ((w + 1) / 2) (by omega) f g (by omega) (by omega)]

/-- Unfolding equation of natBitsAux on positive fuel and value. -/
theorem natBitsAux_succ (f w : Nat) :
    natBitsAux (f + 1) (w + 1)
      = natBitsAux f ((w + 1) / 2) ++ [decide ((w + 1) % 2 = 1)] := rfl

/-- Appending one bit: the binary expansion of 2v + r for positive v is the
expansion of v followed by the bit r. -/
theorem pythonBin_two_mul (v r : Nat) (hv : 0 < v) (hr : r < 2) :
    pythonBin (2 * v + r) = pythonBin v ++ [decide (r = 1)] := by
  obtain ⟨w, hw⟩ : ∃ w, 2 * v + r = w + 1 := ⟨2 * v + r - 1, by omega⟩
  unfold pythonBin
  rw [if_neg (by omega : ¬ 2 * v + r = 0), if_neg (by omega : ¬ v = 0), hw,
    natBitsAux_succ]
  have hdiv : (w + 1) / 2 = v := by omega
  have hmod : (w + 1) % 2 = r := by omega
  rw [hdiv, hmod]
  rw [natBitsAux_congr v w v (by omega) (le_refl v)]

/-- Appending one hex digit: the binary expansion of 16v + d for positive v
is the expansion of v followed by the four bits of d. -/
theorem pythonBin_sixteen_mul (v : Nat) (d : Fin 16) (hv : 0 < v) :
    pythonBin (16 * v + d.val) = pythonBin v ++ bits4 d := by
  have hd : d.val < 16 := d.isLt
  have e1 : 16 * v + d.val
      = 2 * (2 * (2 * (2 * v + d.val / 8) + d.val / 4 % 2) + d.val / 2 % 2)
        + d.val % 2 := by omega
  rw [e1]
  rw [pythonBin_two_mul _ _ (by omega) (by omega)]
  rw [pythonBin_two_mul _ _ (by omega) (by omega)]
  rw [pythonBin_two_mul _ _ (by omega) (by omega)]
  have e2 : 2 * v + d.val / 8 = 2 * v + d.val / 8 % 2 := by omega
  rw [e2, pythonBin_two_mul _ _ hv (by omega)]
  simp [bits4, List.append_assoc]

/-- Folding the digit accumulator keeps positivity. -/
theorem hexToNat_foldl_pos (t : List (Fin 16)) : ∀ (acc : Nat), 0 < acc →
    0 < t.foldl (fun a d => 16 * a + d.val) acc := by
  induction t with
  | nil => intro acc h; simpa using h
  | cons d rest ih =>
      intro acc h
      rw [List.foldl_cons]
      exact ih (16 * acc + d.val) (by omega)

/-- A hex string starting with a digit of value at least 8 has a positive
value. -/
theorem hexToNat_cons_pos (d0 : Fin 16) (t : List (Fin 16)) (h8 : 8 ≤ d0.val) :
    0 < hexToNat (d0 :: t) := by
  unfold hexToNat
  rw [List.foldl_cons]
  exact hexToNat_foldl_pos t (16 * 0 + d0.val) (by omega)

/-- Appending a digit multiplies the value by 16 and adds the digit. -/
theorem hexToNat_concat (h : List (Fin 16)) (d : Fin 16) :
    hexToNat (h ++ [d]) = 16 * hexToNat h + d.val := by
  unfold hexToNat
  rw [List.foldl_append]
  rfl

/-- bitsOfHex distributes over append. -/
theorem bitsOfHex_append : ∀ (l1 l2 : List (Fin 16)),
    bitsOfHex (l1 ++ l2) = bitsOfHex l1 ++ bitsOfHex l2
  | [], _ => rfl
  | d :: rest, l2 => by
      simp [bitsOfHex, bitsOfHex_append rest l2]

/-- For a single digit with its top bit set, the stripped binary expansion
is exactly its four bits. -/
theorem pythonBin_digit_all : ∀ d : Fin 16, 8 ≤ d.val →
    pythonBin d.val = bits4 d := by decide

/-- When the leading digit has its top bit set no leading zero bits exist
to strip, so bin(int(h, 16))[2:] is the exact 4-bits-per-digit expansion. -/
theorem pythonBin_hexToNat (d0 : Fin 16) (h8 : 8 ≤ d0.val) :
    ∀ (h : List (Fin 16)),
      pythonBin (hexToNat (d0 :: h)) = bitsOfHex (d0 :: h) := by
  intro h
  induction h using List.reverseRecOn with
  | nil =>
      have hv : hexToNat [d0] = d0.val := by simp [hexToNat]
      rw [hv, pythonBin_digit_all d0 h8]
      simp [bitsOfHex]
  | append_singleton t d ih =>
      have e : (d0 :: (t ++ [d])) = (d0 :: t) ++ [d] := by simp
      rw [e, hexToNat_concat, pythonBin_sixteen_mul _ d (hexToNat_cons_pos d0 t h8),
        ih, bitsOfHex_append]
      simp [bitsOfHex]

/-- The bit value of two hex digits packs into the byte 16 d1 + d2. -/
theorem byteVal8_bits4 : ∀ (d1 d2 : Fin 16),
    byteVal8 (decide (d1.val / 8 % 2 = 1)) (decide (d1.val / 4 % 2 = 1))
      (decide (d1.val / 2 % 2 = 1)) (decide (d1.val % 2 = 1))
      (decide (d2.val / 8 % 2 = 1)) (decide (d2.val / 4 % 2 = 1))
      (decide (d2.val / 2 % 2 = 1)) (decide (d2.val % 2 = 1))
      = 16 * d1.val + d2.val := by decide

/-- Chunking the exact bit expansion of an even-length hex string gives the
direct pairwise decode. -/
theorem chunkBytes_bitsOfHex : ∀ (h : List (Fin 16)), h.length % 2 = 0 →
    chunkBytes (bitsOfHex h) = hexPairsToBytes h
  | [], _ => rfl
  | [_], hlen => by simp at hlen
  | d1 :: d2 :: rest, hlen => by
      have hr : rest.length % 2 = 0 := by
        simp only [List.length_cons] at hlen
        omega
      have e : bitsOfHex (d1 :: d2 :: rest)
          = bits4 d1 ++ (bits4 d2 ++ bitsOfHex rest) := rfl
      rw [e]
      simp only [bits4, List.cons_append, List.nil_append]
      rw [chunkBytes, byteVal8_bits4, chunkBytes_bitsOfHex rest hr]
      rfl

/-- Four bits per digit. -/
theorem bitsOfHex_length : ∀ (h : List (Fin 16)),
    (bitsOfHex h).length = 4 * h.length
  | [] => rfl
  | d :: rest => by
      simp [bitsOfHex, bits4, bitsOfHex_length rest]
      omega

/-- Claim C3 amended: for every even-length hex string whose leading digit
has value at least 8 (so that bin() strips no leading zero bits), the
createBytesFromPayloads round trip equals the direct hex-to-bytes decode.
The counterexample above (leading digit 0) shows the unrestricted claim is
false. -/
theorem c3_roundtrip_amended (d0 : Fin 16) (rest : List (Fin 16))
    (h8 : 8 ≤ d0.val) (heven : (d0 :: rest).length % 2 = 0) :
    createBytesFromPayload (d0 :: rest) = hexPairsToBytes (d0 :: rest) := by
  unfold createBytesFromPayload turnToBytes
  rw [pythonBin_hexToNat d0 h8 rest]
  have hmod : (8 - (bitsOfHex (d0 :: rest)).length % 8) % 8 = 0 := by
    rw [bitsOfHex_length]
    omega
  rw [hmod]
  simp only [List.replicate_zero, List.append_nil]
  exact chunkBytes_bitsOfHex _ heven

/-- Concrete witness for the amended claim C3: the hex string 80 decodes to
the byte 0x80 along both routes. -/
theorem c3_roundtrip_amended_witness :
    8 ≤ (8 : Fin 16).val ∧ (([8, 0] : List (Fin 16)).length % 2 = 0) ∧
    createBytesFromPayload [8, 0] = hexPairsToBytes [8, 0] :=
  ⟨by decide, by decide, c3_roundtrip_amended 8 [0] (by decide) (by decide)⟩

/-- Mutable state of the nested db recursion of
src/utilities.py generate_de_bruijn_sequence: the working array a (length
k times n, zero initialised, index 0 never written) and the accumulated
output sequence. -/
structure DBState where
  a : List Nat
  sequence : List Nat
deriving DecidableEq

/-- The nested function db(t, p) of generate_de_bruijn_sequence, with an
explicit fuel that counts the remaining recursion depth (t increases by one
per level and stops at n times k, so any fuel of at least n*k + 1 - t is
enough).  The for loop over j in range(a[t-p]+1, k) is a fold, reading
a[t-p] after the first recursive call returns, exactly as Python evaluates
the range. -/
def dbRun (k n : Nat) : Nat → Nat → Nat → DBState → DBState
  | 0, _, _, st => st
  | fuel + 1, t, p, st =>
      if t = n * k then
        if n % p = 0 then
          { st with sequence := st.sequence ++ ((st.a.drop 1).take p) }
        else st
      else
        let a1 := st.a.set t (st.a.getD (t - p) 0)
        let st1 := dbRun k n fuel (t + 1) p { st with a := a1 }
        let lo := st1.a.getD (t - p) 0 + 1
        (List.range' lo (k - lo)).foldl
          (fun st2 j => dbRun k n fuel (t + 1) t { st2 with a := st2.a.set t j })
          st1

/-- src/utilities.py generate_de_bruijn_sequence for a numeric arity k:
a = [0]*(k*n), db(1, 1), then the output sequence.  The source renders the
result through the alphabet as a string; this embedding returns the symbol
index sequence itself. -/
def generate_de_bruijn_sequence (k n : Nat) : List Nat :=
  (dbRun k n (n * k) 1 1 { a := List.replicate (k * n) 0, sequence := [] }).sequence

/-- The length-n window of the sequence s starting at position i, read
cyclically. -/
def cyclicWindow (s : List Nat) (i n : Nat) : List Nat :=
  (List.range n).map (fun j => s.getD ((i + j) % s.length) 0)

/-- Code evaluation: the generated binary order-3 sequence is 00010111. -/
theorem generate_de_bruijn_two_three :
    generate_de_bruijn_sequence 2 3 = [0, 0, 0, 1, 0, 1, 1, 1] := by decide

/-- Code evaluation: the order-3 binary sequence has length 8 and its eight
cyclic windows are pairwise distinct, so each of the eight binary words of
length 3 occurs exactly once cyclically. -/
theorem generate_de_bruijn_two_three_windows :
    (generate_de_bruijn_sequence 2 3).length = 2 ^ 3 ∧
    ((List.range (2 ^ 3)).map
      (fun i => cyclicWindow (generate_de_bruijn_sequence 2 3) i 3)).Nodup := by decide

/-- Code evaluation: the order-4 binary sequence is a de Bruijn sequence
(length 16, all sixteen cyclic windows distinct, symbols below 2). -/
theorem generate_de_bruijn_two_four_windows :
    (generate_de_bruijn_sequence 2 4).length = 2 ^ 4 ∧
    (∀ x ∈ generate_de_bruijn_sequence 2 4, x < 2) ∧
    ((List.range (2 ^ 4)).map
      (fun i => cyclicWindow (generate_de_bruijn_sequence 2 4) i 4)).Nodup := by decide

/-- Code evaluation: the arity-3 order-2 sequence is a de Bruijn sequence
(length 9, all nine cyclic windows distinct, symbols below 3). -/
theorem generate_de_bruijn_three_two_windows :
    (generate_de_bruijn_sequence 3 2).length = 3 ^ 2 ∧
    (∀ x ∈ generate_de_bruijn_sequence 3 2, x < 3) ∧
    ((List.range (3 ^ 2)).map
      (fun i => cyclicWindow (generate_de_bruijn_sequence 3 2) i 2)).Nodup := by decide

end RFCrack
